import Mathlib

set_option maxRecDepth 8000

namespace HttpKit

/-!
Shallow embedding of the http-kit crate's SSE codec (src/sse.rs) and Body
abstraction (src/body/mod.rs). Bytes are natural numbers and Rust strings are
their byte sequences. String::from_utf8_lossy inside the SSE parser is
modelled as the identity on bytes: replacement of invalid sequences never
affects the ASCII field prefixes or the newline scanning that drive the
parser, so the model is exact for valid UTF-8 input.
-/

/-- Byte value of the line feed character. -/
def nl : Nat := 10

/-- Byte value of the carriage return character. -/
def cr : Nat := 13

/-- ASCII bytes of the field prefix "data: ". -/
def dataSp : List Nat := [100, 97, 116, 97, 58, 32]

/-- ASCII bytes of the field prefix "data:". -/
def dataC : List Nat := [100, 97, 116, 97, 58]

/-- ASCII bytes of the field prefix "event: ". -/
def eventSp : List Nat := [101, 118, 101, 110, 116, 58, 32]

/-- ASCII bytes of the field prefix "event:". -/
def eventC : List Nat := [101, 118, 101, 110, 116, 58]

/-- ASCII bytes of the field prefix "id: ". -/
def idSp : List Nat := [105, 100, 58, 32]

/-- ASCII bytes of the field prefix "id:". -/
def idC : List Nat := [105, 100, 58]

/-- ASCII bytes of the field prefix "retry: ". -/
def retrySp : List Nat := [114, 101, 116, 114, 121, 58, 32]

/-- ASCII bytes of the field prefix "retry:". -/
def retryC : List Nat := [114, 101, 116, 114, 121, 58]

/-- Rust str::strip_prefix over byte strings: the remainder when the first
argument is a prefix of the second, none otherwise. -/
def stripPfx : List Nat → List Nat → Option (List Nat)
  | [], s => some s
  | _ :: _, [] => none
  | p :: ps, c :: cs => if p = c then stripPfx ps cs else none

/-- Decimal digit test on a byte. -/
def isDigit (b : Nat) : Bool := decide (48 ≤ b ∧ b ≤ 57)

/-- Digit part of u64::from_str: one or more decimal digits whose value
fits in 64 bits (overflow is a parse error). -/
def parseU64core (t : List Nat) : Option Nat :=
  if t ≠ [] ∧ t.all isDigit then
    if t.foldl (fun a b => a * 10 + (b - 48)) 0 < 2 ^ 64 then
      some (t.foldl (fun a b => a * 10 + (b - 48)) 0)
    else none
  else none

/-- Rust u64::from_str: an optional leading plus sign, then the digits. -/
def parseU64 (s : List Nat) : Option Nat :=
  parseU64core (if s.headD 0 = 43 then s.tail else s)

/-- Decimal digit bytes of a natural number, as u64::to_string renders it. -/
def natDecimal (n : Nat) : List Nat :=
  if n = 0 then [48] else (Nat.digits 10 n).reverse.map (fun d => d + 48)

/-- SSE event (struct Event in src/sse.rs), field strings as byte lists. -/
structure Event where
  event : Option (List Nat)
  data : List Nat
  id : Option (List Nat)
  retry : Option Nat
deriving DecidableEq, Repr

/-- In-progress accumulator for one event block (struct PartialEvent). -/
structure PartialEvent where
  id : Option (List Nat)
  event : Option (List Nat)
  data : List (List Nat)
  retry : Option Nat
deriving DecidableEq, Repr

/-- PartialEvent::default(). -/
def PartialEvent.default : PartialEvent := ⟨none, none, [], none⟩

/-- Event::encode: the optional event line, the data line, the optional id
line, the optional retry line, then the terminating blank line. -/
def Event.encode (e : Event) : List Nat :=
  (match e.event with
   | some v => eventSp ++ v ++ [nl]
   | none => []) ++
  (dataSp ++ e.data ++ [nl]) ++
  (match e.id with
   | some v => idSp ++ v ++ [nl]
   | none => []) ++
  (match e.retry with
   | some r => retrySp ++ natDecimal r ++ [nl]
   | none => []) ++ [nl]

/-- Field classification shared by the two line-processing sites of
parse_event_from_buffer: the ordered strip_prefix chain over "data: ",
"data:", "event: ", "event:", "id: ", "id:", "retry: ", "retry:". A matched
retry whose remainder does not parse stops the chain without any effect, and
a line matching no prefix (comment lines included) leaves the state
unchanged, exactly as in the source. -/
def applyField (pe : PartialEvent) (line : List Nat) : PartialEvent :=
  match stripPfx dataSp line with
  | some d => { pe with data := pe.data ++ [d] }
  | none =>
    match stripPfx dataC line with
    | some d => { pe with data := pe.data ++ [d] }
    | none =>
      match stripPfx eventSp line with
      | some v => { pe with event := some v }
      | none =>
        match stripPfx eventC line with
        | some v => { pe with event := some v }
        | none =>
          match stripPfx idSp line with
          | some v => { pe with id := some v }
          | none =>
            match stripPfx idC line with
            | some v => { pe with id := some v }
            | none =>
              match stripPfx retrySp line with
              | some r =>
                match parseU64 r with
                | some v => { pe with retry := some v }
                | none => pe
              | none =>
                match stripPfx retryC line with
                | some r =>
                  match parseU64 r with
                  | some v => { pe with retry := some v }
                  | none => pe
                | none => pe

/-- Split a byte string at line feeds, keeping empty segments. -/
def splitNl : List Nat → List (List Nat)
  | [] => [[]]
  | b :: rest =>
    if b = nl then [] :: splitNl rest
    else
      match splitNl rest with
      | [] => [[b]]
      | l :: ls => (b :: l) :: ls

/-- Drop one trailing carriage return, as str::lines does per line. -/
def rstripCR (l : List Nat) : List Nat :=
  if l.getLast? = some cr then l.dropLast else l

/-- Rust str::lines over bytes: split at line feeds, drop a final empty
segment, and strip one trailing carriage return from each line. -/
def rustLines (bs : List Nat) : List (List Nat) :=
  let ps := splitNl bs
  (if ps.getLast? = some ([] : List Nat) then ps.dropLast else ps).map rstripCR

/-- Line handling inside the block branch of parse_event_from_buffer: empty
lines are skipped, other lines go through the field chain. -/
def processBlockLine (pe : PartialEvent) (line : List Nat) : PartialEvent :=
  if line = [] then pe else applyField pe line

/-- Processing of one drained event block (the bytes up to and including a
double line feed) by the block branch. -/
def processBlock (pe : PartialEvent) (block : List Nat) : PartialEvent :=
  (rustLines block).foldl processBlockLine pe

/-- All trailing line feeds removed (String::trim_end_matches with LF). -/
def stripTrailingNl (bs : List Nat) : List Nat :=
  (bs.reverse.dropWhile (fun b => b == nl)).reverse

/-- Processing of one drained incomplete line (the single-newline branch):
the trailing line feeds are trimmed and the field chain applied. Unlike the
block branch there is no carriage-return stripping here. -/
def processSingleLine (pe : PartialEvent) (lineData : List Nat) : PartialEvent :=
  applyField pe (stripTrailingNl lineData)

/-- Index of the first line feed of a byte list, if any. -/
def scanNl : List Nat → Option Nat
  | [] => none
  | b :: rest => if b = nl then some 0 else (scanNl rest).map (· + 1)

/-- Index of the first line feed at position i or later. -/
def findNl (buf : List Nat) (i : Nat) : Option Nat :=
  (scanNl (buf.drop i)).map (i + ·)

/-- Event assembled when a block with pending data is emitted: the data
lines joined with a line feed, the other fields taken (reset to none). -/
def PartialEvent.toEvent (pe : PartialEvent) : Event :=
  { event := pe.event
    data := List.intercalate [nl] pe.data
    id := pe.id
    retry := pe.retry }

/-- One run of the scanning loop of parse_event_from_buffer. The fuel only
bounds the recursion depth: every recursive call strictly shrinks the
buffer, so any fuel above the buffer length gives the same result
(parseLoop_fuel below). The scan index i survives a drained block whose
accumulated data was empty, exactly as in the source, which can leave line
feeds before position i unscanned in the remaining buffer. -/
def parseLoop : Nat → List Nat → PartialEvent → Nat →
    Option Event × List Nat × PartialEvent
  | 0, buf, pe, _ => (none, buf, pe)
  | fuel + 1, buf, pe, i =>
    match findNl buf i with
    | none => (none, buf, pe)
    | some j =>
      if j + 1 < buf.length ∧ buf.getD (j + 1) 0 = nl then
        if (processBlock pe (buf.take (j + 2))).data ≠ [] then
          (some (processBlock pe (buf.take (j + 2))).toEvent, buf.drop (j + 2),
            PartialEvent.default)
        else if j < (buf.drop (j + 2)).length ∧ (buf.drop (j + 2)).getD j 0 = nl then
          parseLoop fuel ((buf.drop (j + 2)).drop (j + 1))
            (processSingleLine (processBlock pe (buf.take (j + 2)))
              ((buf.drop (j + 2)).take (j + 1))) 0
        else
          parseLoop fuel (buf.drop (j + 2)) (processBlock pe (buf.take (j + 2))) (j + 1)
      else
        parseLoop fuel (buf.drop (j + 1)) (processSingleLine pe (buf.take (j + 1))) 0

/-- parse_event_from_buffer: the parsed event when a complete block with
data was found, with the remaining buffer and the updated partial event. -/
def parseEventFromBuffer (buf : List Nat) (pe : PartialEvent) :
    Option Event × List Nat × PartialEvent :=
  parseLoop (buf.length + 1) buf pe 0

/-- Body-level errors (body/error_type.rs); the io, serde and catch-all
variants are collapsed into abstract tags, since no embedded operation
inspects their payloads. -/
inductive BodyError where
  | bodyFrozen
  | utf8
  | io
  | other
deriving DecidableEq, Repr

deriving instance DecidableEq for Except

/-- MIME constants the embedded operations mention. -/
inductive Mime where
  | applicationOctetStream
  | textPlainUtf8
  | textEventStream
deriving DecidableEq, Repr

/-- BodyInner: the four backing stores. A reader is modelled by the list of
byte chunks its successive fill_buf calls deliver, an empty chunk meaning
end of input (reader-side io errors are not modelled); an http-body stream
is modelled by its list of data frames or errors. -/
inductive BodyInner where
  | once (bytes : List Nat)
  | reader (chunks : List (List Nat)) (length : Option Nat)
  | httpBody (frames : List (Except BodyError (List Nat)))
  | freeze
deriving DecidableEq, Repr

/-- Body: a MIME tag and the backing store. -/
structure Body where
  mime : Option Mime
  inner : BodyInner
deriving DecidableEq, Repr

/-- Body::empty. -/
def Body.empty : Body := ⟨none, .once []⟩

/-- Body::frozen. -/
def Body.frozen : Body := ⟨none, .freeze⟩

/-- Body::from_bytes: an in-memory payload with the octet-stream MIME. -/
def Body.fromBytes (data : List Nat) : Body :=
  ⟨some .applicationOctetStream, .once data⟩

/-- Body::from_reader: a reader-backed body with an optional length hint. -/
def Body.fromReader (chunks : List (List Nat)) (length : Option Nat) : Body :=
  ⟨none, .reader chunks length⟩

/-- Body::from_stream: a stream-backed body. -/
def Body.fromStream (frames : List (Except BodyError (List Nat))) : Body :=
  ⟨none, .httpBody frames⟩

/-- Body::is_frozen. -/
def Body.isFrozen (b : Body) : Bool :=
  match b.inner with
  | .freeze => true
  | _ => false

/-- Body::len: the byte count of an in-memory body, the hint of a reader,
none otherwise. -/
def Body.len (b : Body) : Option Nat :=
  match b.inner with
  | .once bytes => some bytes.length
  | .reader _ length => length
  | _ => none

/-- Body::with_mime. -/
def Body.withMime (b : Body) (m : Mime) : Body := ⟨some m, b.inner⟩

/-- Reader loop of Body::into_bytes: fill_buf and consume until an empty
read. -/
def readAll : List (List Nat) → List Nat
  | [] => []
  | c :: cs => if c = [] then [] else c ++ readAll cs

/-- Tail loop of the stream branch of Body::into_bytes. -/
def collectFrames (acc : List Nat) :
    List (Except BodyError (List Nat)) → Except BodyError (List Nat)
  | [] => .ok acc
  | .ok d :: rest => collectFrames (acc ++ d) rest
  | .error e :: _ => .error e

/-- Stream branch of Body::into_bytes: the first two chunks are pulled
eagerly; when no second chunk arrives the first is returned unmodified (the
single-chunk fast path), otherwise all chunks are copied into one buffer. -/
def intoBytesStream : List (Except BodyError (List Nat)) → Except BodyError (List Nat)
  | [] => .ok []
  | .error e :: _ => .error e
  | .ok first :: rest =>
    match rest with
    | [] => .ok first
    | .error e :: _ => .error e
    | .ok second :: rest2 => collectFrames (first ++ second) rest2

/-- Body::into_bytes. -/
def Body.intoBytes (b : Body) : Except BodyError (List Nat) :=
  match b.inner with
  | .once bytes => .ok bytes
  | .reader chunks _ => .ok (readAll chunks)
  | .httpBody frames => intoBytesStream frames
  | .freeze => .error .bodyFrozen

/-- UTF-8 validity of a byte list (core::str::from_utf8). -/
def utf8Valid : List Nat → Bool
  | [] => true
  | b :: rest =>
    if b < 128 then utf8Valid rest
    else if 194 ≤ b ∧ b ≤ 223 then
      match rest with
      | c1 :: r => decide (128 ≤ c1 ∧ c1 ≤ 191) && utf8Valid r
      | [] => false
    else if b = 224 then
      match rest with
      | c1 :: c2 :: r =>
        decide (160 ≤ c1 ∧ c1 ≤ 191) && decide (128 ≤ c2 ∧ c2 ≤ 191) && utf8Valid r
      | _ => false
    else if (225 ≤ b ∧ b ≤ 236) ∨ b = 238 ∨ b = 239 then
      match rest with
      | c1 :: c2 :: r =>
        decide (128 ≤ c1 ∧ c1 ≤ 191) && decide (128 ≤ c2 ∧ c2 ≤ 191) && utf8Valid r
      | _ => false
    else if b = 237 then
      match rest with
      | c1 :: c2 :: r =>
        decide (128 ≤ c1 ∧ c1 ≤ 159) && decide (128 ≤ c2 ∧ c2 ≤ 191) && utf8Valid r
      | _ => false
    else if b = 240 then
      match rest with
      | c1 :: c2 :: c3 :: r =>
        decide (144 ≤ c1 ∧ c1 ≤ 191) && decide (128 ≤ c2 ∧ c2 ≤ 191) &&
          decide (128 ≤ c3 ∧ c3 ≤ 191) && utf8Valid r
      | _ => false
    else if 241 ≤ b ∧ b ≤ 243 then
      match rest with
      | c1 :: c2 :: c3 :: r =>
        decide (128 ≤ c1 ∧ c1 ≤ 191) && decide (128 ≤ c2 ∧ c2 ≤ 191) &&
          decide (128 ≤ c3 ∧ c3 ≤ 191) && utf8Valid r
      | _ => false
    else if b = 244 then
      match rest with
      | c1 :: c2 :: c3 :: r =>
        decide (128 ≤ c1 ∧ c1 ≤ 143) && decide (128 ≤ c2 ∧ c2 ≤ 191) &&
          decide (128 ≤ c3 ∧ c3 ≤ 191) && utf8Valid r
      | _ => false
    else false

/-- Body::into_string: into_bytes followed by strict UTF-8 validation. -/
def Body.intoString (b : Body) : Except BodyError (List Nat) :=
  match b.intoBytes with
  | .error e => .error e
  | .ok bs => if utf8Valid bs then .ok bs else .error .utf8

/-- Body::replace via mem::replace: the pair is (returned old body, new
state of self); it never fails, even on a frozen body. -/
def Body.replace (b new : Body) : Body × Body := (b, new)

/-- Body::take: the old body is returned whole and self is left as the
frozen placeholder (the entire value, MIME included, is replaced); it fails
when the body is already frozen. The pair is (result, new state of self). -/
def Body.take (b : Body) : Except BodyError Body × Body :=
  if b.isFrozen then (.error .bodyFrozen, b)
  else (.ok b, Body.frozen)

/-- Body::freeze: self is replaced by the frozen placeholder, the previous
content is discarded. -/
def Body.freeze (b : Body) : Body := (b.replace Body.frozen).2

/-- Body::as_bytes: self.inner becomes Once over take()?.into_bytes()?; the
pair is (result, new state of self). After success the body is the cached
Once value with no MIME, because take replaced the whole body with the
frozen placeholder first. -/
def Body.asBytes (b : Body) : Except BodyError (List Nat) × Body :=
  match b.take with
  | (.error e, b') => (.error e, b')
  | (.ok taken, b') =>
    match taken.intoBytes with
    | .error e => (.error e, b')
    | .ok bytes => (.ok bytes, ⟨b'.mime, .once bytes⟩)

/-- Body::as_str: as_bytes then a strict UTF-8 check on the cached bytes. -/
def Body.asStr (b : Body) : Except BodyError (List Nat) × Body :=
  match b.asBytes with
  | (.error e, b') => (.error e, b')
  | (.ok bytes, b') =>
    if utf8Valid bytes then (.ok bytes, b') else (.error .utf8, b')

/-- Stream::poll_next for Body, one poll step: the yielded item, if any, and
the new state. Once yields its bytes then empties; a reader consumes one
fill_buf chunk and decrements the length hint saturating at zero (usize
saturating_sub, which truncated Nat subtraction models exactly); a stream
forwards its next frame; a frozen body always yields the BodyFrozen error. -/
def Body.pollNext (b : Body) : Option (Except BodyError (List Nat)) × Body :=
  match b.inner with
  | .once bytes =>
    if bytes = [] then (none, b)
    else (some (.ok bytes), ⟨b.mime, .once []⟩)
  | .reader chunks length =>
    match chunks with
    | [] => (none, b)
    | c :: cs =>
      if c = [] then (none, b)
      else (some (.ok c), ⟨b.mime, .reader cs (length.map (fun n => n - c.length))⟩)
  | .httpBody frames =>
    match frames with
    | [] => (none, b)
    | f :: rest => (some f, ⟨b.mime, .httpBody rest⟩)
  | .freeze => (some (.error .bodyFrozen), b)

/-- Number of items the body can still yield, which bounds the number of
successful pulls the inner loop of SseStream::poll_next can make. -/
def Body.remainingItems (b : Body) : Nat :=
  match b.inner with
  | .once bytes => if bytes = [] then 0 else 1
  | .reader chunks _ => chunks.length
  | .httpBody frames => frames.length
  | .freeze => 0

/-- Total bytes the body can still deliver (a fuel bound for sseEvents). -/
def Body.totalBytes (b : Body) : Nat :=
  match b.inner with
  | .once bytes => bytes.length
  | .reader chunks _ => (chunks.map List.length).sum
  | .httpBody frames =>
    (frames.map (fun f => match f with | .ok d => d.length | .error _ => 0)).sum
  | .freeze => 0

/-- SSE parse errors (enum ParseError in src/sse.rs); bodyError carries the
underlying body error in place of its rendered message. -/
inductive ParseError where
  | bodyError (e : BodyError)
  | invalidUtf8
  | invalidRetryValue
deriving DecidableEq, Repr

/-- SseStream: the wrapped body, the parse buffer, the partial event. -/
structure SseStream where
  body : Body
  buffer : List Nat
  partialEvent : PartialEvent
deriving DecidableEq, Repr

/-- SseStream::new. -/
def SseStream.new (body : Body) : SseStream := ⟨body, [], PartialEvent.default⟩

/-- Inner loop of SseStream::poll_next: try to parse an event from the
buffer; otherwise pull from the body, append the frame and retry; a body
error is forwarded as ParseError.bodyError without ending the stream; at end
of body a pending partial event with data is flushed. Every recursive call
consumes one body item, so remainingItems + 1 fuel always suffices. -/
def ssePollLoop : Nat → SseStream → Option (Except ParseError Event) × SseStream
  | 0, s => (none, s)
  | fuel + 1, s =>
    match parseEventFromBuffer s.buffer s.partialEvent with
    | (some ev, buf', pe') => (some (.ok ev), ⟨s.body, buf', pe'⟩)
    | (none, buf', pe') =>
      match s.body.pollNext with
      | (some (.ok frame), body') => ssePollLoop fuel ⟨body', buf' ++ frame, pe'⟩
      | (some (.error e), body') => (some (.error (.bodyError e)), ⟨body', buf', pe'⟩)
      | (none, body') =>
        if pe'.data ≠ [] then
          (some (.ok pe'.toEvent), ⟨body', buf', PartialEvent.default⟩)
        else (none, ⟨body', buf', pe'⟩)

/-- SseStream::poll_next, one poll. -/
def SseStream.pollNext (s : SseStream) : Option (Except ParseError Event) × SseStream :=
  ssePollLoop (s.body.remainingItems + 1) s

/-- Items produced by polling the stream n times, with the final state. -/
def ssePolls : Nat → SseStream → List (Option (Except ParseError Event)) × SseStream
  | 0, s => ([], s)
  | n + 1, s =>
    (s.pollNext.1 :: (ssePolls n s.pollNext.2).1, (ssePolls n s.pollNext.2).2)

/-- Items observed by a consumer that stops at the first None, i.e. the
stream's item sequence through StreamExt::next, cut off by fuel. -/
def sseEventsFuel : Nat → SseStream → List (Except ParseError Event)
  | 0, _ => []
  | n + 1, s =>
    match s.pollNext with
    | (none, _) => []
    | (some r, s') => r :: sseEventsFuel n s'

/-- Event sequence decoded from a body, polled to the first None. The fuel
bound covers every body whose item list is finite and, as here, is only
applied to such bodies. -/
def sseEvents (b : Body) : List (Except ParseError Event) :=
  sseEventsFuel (b.totalBytes + b.remainingItems + 2) (SseStream.new b)

/-- Byte string "data: a\n", the first chunk of the splitting that refutes
chunk-boundary invariance. -/
def bChunk1 : List Nat := dataSp ++ [97, nl]

/-- Byte string "\ndata: b\n\n", the second chunk of that splitting. -/
def bChunk2 : List Nat := nl :: dataSp ++ [98, nl, nl]

/-- Byte string "data: a\n\ndata: b\n\n". -/
def bWhole : List Nat := bChunk1 ++ bChunk2

/-- Partial event holding one pending data line "a". -/
def peOneData : PartialEvent := ⟨none, none, [[97]], none⟩

/-! Helper lemmas about the parser. -/

/-- Parsing an empty buffer returns nothing and changes nothing. -/
theorem parseEventFromBuffer_nil (pe : PartialEvent) :
    parseEventFromBuffer [] pe = (none, [], pe) := rfl

/-- The field chain ignores an empty line. -/
theorem applyField_nil (pe : PartialEvent) : applyField pe [] = pe := rfl

/-- Draining a blank separator block leaves the partial event unchanged. -/
theorem processBlock_blank (pe : PartialEvent) : processBlock pe [nl, nl] = pe := rfl

/-- Unfolding of parseLoop when the scan finds no line feed. -/
theorem parseLoop_succ_none {buf : List Nat} {i : Nat} (fuel : Nat) (pe : PartialEvent)
    (hj : findNl buf i = none) :
    parseLoop (fuel + 1) buf pe i = (none, buf, pe) := by
  rw [parseLoop, hj]

/-- Unfolding of parseLoop when the scan finds a line feed at position j. -/
theorem parseLoop_succ_some {buf : List Nat} {i j : Nat} (fuel : Nat) (pe : PartialEvent)
    (hj : findNl buf i = some j) :
    parseLoop (fuel + 1) buf pe i =
      if j + 1 < buf.length ∧ buf.getD (j + 1) 0 = nl then
        if (processBlock pe (buf.take (j + 2))).data ≠ [] then
          (some (processBlock pe (buf.take (j + 2))).toEvent, buf.drop (j + 2),
            PartialEvent.default)
        else if j < (buf.drop (j + 2)).length ∧ (buf.drop (j + 2)).getD j 0 = nl then
          parseLoop fuel ((buf.drop (j + 2)).drop (j + 1))
            (processSingleLine (processBlock pe (buf.take (j + 2)))
              ((buf.drop (j + 2)).take (j + 1))) 0
        else
          parseLoop fuel (buf.drop (j + 2)) (processBlock pe (buf.take (j + 2))) (j + 1)
      else
        parseLoop fuel (buf.drop (j + 1)) (processSingleLine pe (buf.take (j + 1))) 0 := by
  rw [parseLoop, hj]

/-- The result of parseLoop does not depend on the fuel once the fuel
exceeds the buffer length, because every recursive call strictly shrinks
the buffer. -/
theorem parseLoop_fuel (f : Nat) : ∀ (g : Nat) (buf : List Nat) (pe : PartialEvent)
    (i : Nat), buf.length < f → buf.length < g →
    parseLoop f buf pe i = parseLoop g buf pe i := by
  induction f with
  | zero => intro g buf pe i hf _; exact absurd hf (Nat.not_lt_zero _)
  | succ f ih =>
    intro g buf pe i hf hg
    obtain ⟨g, rfl⟩ : ∃ k, g = k + 1 := ⟨g - 1, by omega⟩
    cases hj : findNl buf i with
    | none => rw [parseLoop_succ_none f pe hj, parseLoop_succ_none g pe hj]
    | some j =>
      rw [parseLoop_succ_some f pe hj, parseLoop_succ_some g pe hj]
      have hne : buf ≠ [] := by
        intro h; subst h; simp [findNl, scanNl] at hj
      have hlen : 1 ≤ buf.length := by
        cases buf with
        | nil => exact absurd rfl hne
        | cons a l => simp
      have hd2 : (buf.drop (j + 2)).length = buf.length - (j + 2) := by simp
      by_cases hd : j + 1 < buf.length ∧ buf.getD (j + 1) 0 = nl
      · rw [if_pos hd, if_pos hd]
        by_cases he : (processBlock pe (buf.take (j + 2))).data ≠ []
        · rw [if_pos he, if_pos he]
        · rw [if_neg he, if_neg he]
          by_cases hs : j < (buf.drop (j + 2)).length ∧ (buf.drop (j + 2)).getD j 0 = nl
          · rw [if_pos hs, if_pos hs]
            have h3 : ((buf.drop (j + 2)).drop (j + 1)).length =
                (buf.drop (j + 2)).length - (j + 1) := by simp; omega
            exact ih _ _ _ _ (by omega) (by omega)
          · rw [if_neg hs, if_neg hs]
            exact ih _ _ _ _ (by omega) (by omega)
      · rw [if_neg hd, if_neg hd]
        have h3 : (buf.drop (j + 1)).length = buf.length - (j + 1) := by simp
        exact ih _ _ _ _ (by omega) (by omega)

/-- scanNl finds nothing in a byte string without line feeds. -/
theorem scanNl_eq_none {L : List Nat} (h : nl ∉ L) : scanNl L = none := by
  induction L with
  | nil => rfl
  | cons b rest ih =>
    have hb : b ≠ nl := fun hb => h (by simp [hb])
    rw [scanNl, if_neg hb, ih (fun hm => h (List.mem_cons_of_mem _ hm))]
    rfl

/-- scanNl finds the line feed that ends a feed-free prefix. -/
theorem scanNl_append {L : List Nat} (t : List Nat) (h : nl ∉ L) :
    scanNl (L ++ nl :: t) = some L.length := by
  induction L with
  | nil => simp [scanNl]
  | cons b rest ih =>
    have hb : b ≠ nl := fun hb => h (by simp [hb])
    rw [List.cons_append, scanNl, if_neg hb,
      ih (fun hm => h (List.mem_cons_of_mem _ hm))]
    simp

/-- findNl from position zero over a feed-free prefix. -/
theorem findNl_zero_append {L : List Nat} (t : List Nat) (h : nl ∉ L) :
    findNl (L ++ nl :: t) 0 = some L.length := by
  simp [findNl, scanNl_append t h]

/-- Trimming the trailing line feed of a completed feed-free line. -/
theorem stripTrailingNl_line {L : List Nat} (h : nl ∉ L) :
    stripTrailingNl (L ++ [nl]) = L := by
  unfold stripTrailingNl
  have h1 : (L ++ [nl]).reverse = nl :: L.reverse := by simp
  rw [h1, List.dropWhile_cons, if_pos (by simp)]
  have h2 : List.dropWhile (fun b => b == nl) L.reverse = L.reverse := by
    cases hL : L.reverse with
    | nil => rfl
    | cons b bs =>
      have hb : b ∈ L := by
        have hmem : b ∈ L.reverse := by rw [hL]; exact List.mem_cons_self _ _
        simpa using hmem
      have hbn : b ≠ nl := fun hb2 => h (hb2 ▸ hb)
      rw [List.dropWhile_cons, if_neg (by simp [hbn])]
  rw [h2, List.reverse_reverse]

/-- splitNl splits off a feed-free first line. -/
theorem splitNl_append {L : List Nat} (t : List Nat) (h : nl ∉ L) :
    splitNl (L ++ nl :: t) = L :: splitNl t := by
  induction L with
  | nil => simp [splitNl]
  | cons b rest ih =>
    have hb : b ≠ nl := fun hb => h (by simp [hb])
    rw [List.cons_append, splitNl, if_neg hb,
      ih (fun hm => h (List.mem_cons_of_mem _ hm))]

/-- A block holding one feed-free line before its double line feed is
processed by running the field chain on that line alone (after carriage
return stripping), empty lines being skipped. -/
theorem processBlock_last {L : List Nat} (pe : PartialEvent) (h : nl ∉ L) :
    processBlock pe (L ++ [nl, nl]) = processBlockLine pe (rstripCR L) := by
  unfold processBlock rustLines
  rw [show (L ++ [nl, nl] : List Nat) = L ++ nl :: [nl] from rfl, splitNl_append _ h]
  rfl

/-- Step of the parser over one completed feed-free line that is not
followed by a blank line: the line is drained and classified, and parsing
continues on the rest of the buffer. -/
theorem parseEvent_line_step {L : List Nat} {r : Nat} (rest : List Nat) (pe : PartialEvent)
    (hL : nl ∉ L) (hr : r ≠ nl) :
    parseEventFromBuffer (L ++ nl :: r :: rest) pe =
      parseEventFromBuffer (r :: rest) (applyField pe L) := by
  unfold parseEventFromBuffer
  rw [parseLoop_succ_some _ pe (findNl_zero_append (r :: rest) hL)]
  have hgetD : (L ++ nl :: r :: rest).getD (L.length + 1) 0 = r := by
    rw [List.getD_append_right _ _ _ _ (by omega)]
    simp [List.getD]
  rw [if_neg (fun hc => hr (hgetD ▸ hc.2))]
  have hdrop : (L ++ nl :: r :: rest).drop (L.length + 1) = r :: rest := by
    rw [List.drop_append 1]; simp
  have htake : (L ++ nl :: r :: rest).take (L.length + 1) = L ++ [nl] := by
    rw [List.take_append 1]; simp
  rw [hdrop, htake,
    show processSingleLine pe (L ++ [nl]) = applyField pe L from by
      unfold processSingleLine; rw [stripTrailingNl_line hL]]
  exact parseLoop_fuel _ _ _ _ _ (by simp; omega) (by simp)

/-- Step of the parser at the final line of a block: the whole remaining
buffer "line, feed, feed" is drained as one block and, when the resulting
data is non-empty, the event is emitted and the partial event reset. -/
theorem parseEvent_last_line {L : List Nat} (pe : PartialEvent) (hL : nl ∉ L)
    (he : (processBlockLine pe (rstripCR L)).data ≠ []) :
    parseEventFromBuffer (L ++ [nl, nl]) pe =
      (some (processBlockLine pe (rstripCR L)).toEvent, [], PartialEvent.default) := by
  unfold parseEventFromBuffer
  have hfind : findNl (L ++ [nl, nl]) 0 = some L.length := by
    rw [show (L ++ [nl, nl] : List Nat) = L ++ nl :: [nl] from rfl]
    exact findNl_zero_append [nl] hL
  rw [parseLoop_succ_some _ pe hfind]
  have hgetD : (L ++ [nl, nl]).getD (L.length + 1) 0 = nl := by
    rw [List.getD_append_right _ _ _ _ (by omega)]
    simp [List.getD]
  have hlt : L.length + 1 < (L ++ [nl, nl]).length := by simp
  rw [if_pos ⟨hlt, hgetD⟩]
  have htake : (L ++ [nl, nl]).take (L.length + 2) = L ++ [nl, nl] := by
    rw [List.take_append 2]; simp
  have hdrop : (L ++ [nl, nl]).drop (L.length + 2) = [] := by
    rw [List.drop_append 2]; simp
  rw [htake, hdrop, processBlock_last pe hL, if_pos he]

/-- Consuming a leading blank separator while data is pending emits the
accumulated event at once: the data lines are joined, every field is taken
and the partial event is reset. -/
theorem parseEvent_blank_emit (pe : PartialEvent) (rest : List Nat) (h : pe.data ≠ []) :
    parseEventFromBuffer (nl :: nl :: rest) pe =
      (some pe.toEvent, rest, PartialEvent.default) := by
  unfold parseEventFromBuffer
  have hfind : findNl (nl :: nl :: rest) 0 = some 0 := by simp [findNl, scanNl]
  rw [parseLoop_succ_some _ pe hfind]
  have hcond : 0 + 1 < (nl :: nl :: rest).length ∧ (nl :: nl :: rest).getD (0 + 1) 0 = nl := by
    refine ⟨by simp, rfl⟩
  rw [if_pos hcond,
    show (nl :: nl :: rest).take (0 + 2) = [nl, nl] from rfl,
    show (nl :: nl :: rest).drop (0 + 2) = rest from rfl,
    processBlock_blank, if_pos h]

/-- Consuming a blank separator with no pending data emits nothing and
keeps the id, event and retry fields for the next block. -/
theorem parseEvent_blank_keep (pe : PartialEvent) (h : pe.data = []) :
    parseEventFromBuffer [nl, nl] pe = (none, [], pe) := by
  unfold parseEventFromBuffer
  rw [parseLoop_succ_some _ pe (show findNl [nl, nl] 0 = some 0 from rfl)]
  rw [show ([nl, nl] : List Nat).take (0 + 2) = [nl, nl] from rfl,
    show ([nl, nl] : List Nat).drop (0 + 2) = [] from rfl, processBlock_blank]
  rw [if_pos (by decide), if_neg (by simp [h]), if_neg (by simp)]
  exact parseLoop_succ_none _ pe rfl

/-- A lone blank line at the head of the buffer is drained by the
incomplete-line branch: it never emits and leaves the fields untouched. -/
theorem parseEvent_lone_blank (pe : PartialEvent) :
    parseEventFromBuffer [nl] pe = (none, [], pe) := rfl

/-! Lemmas about the field chain and u64 parsing. -/

/-- strip_prefix recovers the remainder of its own prefix. -/
theorem stripPfx_append (p s : List Nat) : stripPfx p (p ++ s) = some s := by
  induction p with
  | nil => rfl
  | cons a ps ih => rw [List.cons_append, stripPfx, if_pos rfl, ih]

/-- Classification of a well-formed data line. -/
theorem applyField_data (pe : PartialEvent) (d : List Nat) :
    applyField pe (dataSp ++ d) = { pe with data := pe.data ++ [d] } := by
  unfold applyField
  rw [stripPfx_append]

/-- Classification of a well-formed event-type line. -/
theorem applyField_event (pe : PartialEvent) (v : List Nat) :
    applyField pe (eventSp ++ v) = { pe with event := some v } := by
  unfold applyField
  rw [show stripPfx dataSp (eventSp ++ v) = none from rfl,
    show stripPfx dataC (eventSp ++ v) = none from rfl, stripPfx_append]

/-- Classification of a well-formed id line. -/
theorem applyField_id (pe : PartialEvent) (v : List Nat) :
    applyField pe (idSp ++ v) = { pe with id := some v } := by
  unfold applyField
  rw [show stripPfx dataSp (idSp ++ v) = none from rfl,
    show stripPfx dataC (idSp ++ v) = none from rfl,
    show stripPfx eventSp (idSp ++ v) = none from rfl,
    show stripPfx eventC (idSp ++ v) = none from rfl, stripPfx_append]

/-- Classification of a retry line whose value parses. -/
theorem applyField_retry (pe : PartialEvent) (g : List Nat) (r : Nat)
    (hg : parseU64 g = some r) :
    applyField pe (retrySp ++ g) = { pe with retry := some r } := by
  simp only [applyField, show stripPfx dataSp (retrySp ++ g) = none from rfl,
    show stripPfx dataC (retrySp ++ g) = none from rfl,
    show stripPfx eventSp (retrySp ++ g) = none from rfl,
    show stripPfx eventC (retrySp ++ g) = none from rfl,
    show stripPfx idSp (retrySp ++ g) = none from rfl,
    show stripPfx idC (retrySp ++ g) = none from rfl, stripPfx_append, hg]

/-- A retry line whose value does not parse is silently ignored: the whole
partial event, its retry field included, is left unchanged. -/
theorem applyField_retry_bad (pe : PartialEvent) (g : List Nat)
    (hg : parseU64 g = none) :
    applyField pe (retrySp ++ g) = pe := by
  simp only [applyField, show stripPfx dataSp (retrySp ++ g) = none from rfl,
    show stripPfx dataC (retrySp ++ g) = none from rfl,
    show stripPfx eventSp (retrySp ++ g) = none from rfl,
    show stripPfx eventC (retrySp ++ g) = none from rfl,
    show stripPfx idSp (retrySp ++ g) = none from rfl,
    show stripPfx idC (retrySp ++ g) = none from rfl, stripPfx_append, hg]

/-- The decimal rendering of a 64-bit value parses back to that value. -/
theorem parseU64_natDecimal {r : Nat} (hr : r < 2 ^ 64) :
    parseU64 (natDecimal r) = some r := by
  by_cases h0 : r = 0
  · subst h0; rfl
  · unfold natDecimal parseU64
    rw [if_neg h0]
    have hne : Nat.digits 10 r ≠ [] := Nat.digits_ne_nil_iff_ne_zero.mpr h0
    have hlt : ∀ d ∈ Nat.digits 10 r, d < 10 :=
      fun d hd => Nat.digits_lt_base (by norm_num) hd
    have hmem : ∀ b ∈ (Nat.digits 10 r).reverse.map (fun d => d + 48),
        48 ≤ b ∧ b ≤ 57 := by
      intro b hb
      obtain ⟨d, hd, rfl⟩ := List.mem_map.mp hb
      have := hlt d (List.mem_reverse.mp hd)
      omega
    have hne2 : (Nat.digits 10 r).reverse.map (fun d => d + 48) ≠ [] := by
      simp [hne]
    have hhead : ((Nat.digits 10 r).reverse.map (fun d => d + 48)).headD 0 ≠ 43 := by
      cases hc : (Nat.digits 10 r).reverse.map (fun d => d + 48) with
      | nil => exact absurd hc hne2
      | cons b bs =>
        have hb := hmem b (by rw [hc]; exact List.mem_cons_self _ _)
        simp only [List.headD]
        omega
    rw [if_neg hhead]
    unfold parseU64core
    have hall : ((Nat.digits 10 r).reverse.map (fun d => d + 48)).all isDigit = true := by
      rw [List.all_eq_true]
      intro b hb
      have := hmem b hb
      simp only [isDigit, decide_eq_true_eq]
      omega
    rw [if_pos ⟨hne2, hall⟩]
    have hfold : ∀ (l : List Nat) (a : Nat),
        l.reverse.foldl (fun x d => x * 10 + d) a = a * 10 ^ l.length + Nat.ofDigits 10 l := by
      intro l
      induction l with
      | nil => intro a; simp [Nat.ofDigits]
      | cons d l ihl =>
        intro a
        rw [List.reverse_cons, List.foldl_append, ihl]
        simp only [List.foldl, Nat.ofDigits_cons, List.length_cons]
        ring
    have hval : ((Nat.digits 10 r).reverse.map (fun d => d + 48)).foldl
        (fun a b => a * 10 + (b - 48)) 0 = r := by
      rw [List.foldl_map]
      have harg : (fun (a : Nat) (d : Nat) => a * 10 + (d + 48 - 48)) =
          fun a d => a * 10 + d := by
        funext a d; omega
      calc ((Nat.digits 10 r).reverse).foldl (fun a d => a * 10 + (d + 48 - 48)) 0
          = ((Nat.digits 10 r).reverse).foldl (fun a d => a * 10 + d) 0 := by rw [harg]
        _ = 0 * 10 ^ (Nat.digits 10 r).length + Nat.ofDigits 10 (Nat.digits 10 r) :=
            hfold (Nat.digits 10 r) 0
        _ = r := by simp [Nat.ofDigits_digits]
    rw [hval, if_pos hr]

/-! Machinery for the encode-decode round trip: an event block as a list of
line contents, laid out as each line followed by a line feed and the whole
followed by the terminating blank line. -/

/-- Wire layout of a list of line contents: every line is closed by a line
feed, and one extra line feed terminates the block. -/
def lineChain : List (List Nat) → List Nat
  | [] => [nl]
  | l :: ls => l ++ nl :: lineChain ls

/-- Running the parser over a block of well-formed lines (non-empty, free
of line feeds, not ending in a carriage return) classifies every line in
order and emits the accumulated event at the final blank line, provided the
accumulated data is non-empty. -/
theorem lineChain_emit (ls : List (List Nat)) : ∀ (pe : PartialEvent), ls ≠ [] →
    (∀ l ∈ ls, l ≠ [] ∧ nl ∉ l ∧ l.getLast? ≠ some cr) →
    (ls.foldl applyField pe).data ≠ [] →
    parseEventFromBuffer (lineChain ls) pe =
      (some (ls.foldl applyField pe).toEvent, [], PartialEvent.default) := by
  induction ls with
  | nil => intro pe h; exact absurd rfl h
  | cons l ls ih =>
    intro pe _ hcond hdata
    obtain ⟨hlne, hlnl, hlcr⟩ := hcond l (List.mem_cons_self _ _)
    have hpb : processBlockLine pe (rstripCR l) = applyField pe l := by
      unfold rstripCR processBlockLine
      rw [if_neg hlcr, if_neg hlne]
    cases ls with
    | nil =>
      rw [show lineChain [l] = l ++ [nl, nl] from rfl,
        parseEvent_last_line pe hlnl (by rw [hpb]; simpa using hdata), hpb]
      simp [List.foldl]
    | cons l2 ls2 =>
      obtain ⟨hl2ne, hl2nl, _⟩ := hcond l2 (List.mem_cons_of_mem _ (List.mem_cons_self _ _))
      cases hl2 : l2 with
      | nil => exact absurd hl2 hl2ne
      | cons b bs =>
        subst hl2
        have hb : b ≠ nl := by
          intro hbe
          exact hl2nl (by rw [hbe]; exact List.mem_cons_self _ _)
        have hshape : lineChain (l :: (b :: bs) :: ls2) =
            l ++ nl :: b :: (bs ++ nl :: lineChain ls2) := by
          rw [lineChain, lineChain]
          simp
        have hback : (b :: (bs ++ nl :: lineChain ls2)) = lineChain ((b :: bs) :: ls2) := by
          rw [lineChain]
          simp
        rw [hshape, parseEvent_line_step _ pe hlnl hb, hback,
          ih (applyField pe l) (by simp)
            (fun x hx => hcond x (List.mem_cons_of_mem _ hx))
            (by simpa [List.foldl] using hdata)]
        simp [List.foldl]

/-- Line contents of an encoded event, in encoding order. -/
def eventLines (e : Event) : List (List Nat) :=
  (match e.event with
   | some v => [eventSp ++ v]
   | none => []) ++
  [dataSp ++ e.data] ++
  (match e.id with
   | some v => [idSp ++ v]
   | none => []) ++
  (match e.retry with
   | some r => [retrySp ++ natDecimal r]
   | none => [])

/-- Event::encode produces exactly the wire layout of its lines. -/
theorem encode_eq_lineChain (e : Event) : e.encode = lineChain (eventLines e) := by
  obtain ⟨ev, d, i, r⟩ := e
  cases ev <;> cases i <;> cases r <;>
    simp [Event.encode, eventLines, lineChain]

/-- An encoded event always holds its data line. -/
theorem eventLines_ne_nil (e : Event) : eventLines e ≠ [] := by
  unfold eventLines
  cases e.event <;> cases e.id <;> cases e.retry <;> simp

/-- The decimal rendering of a retry value is a well-formed line part. -/
theorem natDecimal_wf (r : Nat) :
    natDecimal r ≠ [] ∧ nl ∉ natDecimal r ∧ (natDecimal r).getLast? ≠ some cr := by
  unfold natDecimal
  by_cases h0 : r = 0
  · rw [if_pos h0]
    exact ⟨by simp, by decide, by decide⟩
  · rw [if_neg h0]
    have hne : Nat.digits 10 r ≠ [] := Nat.digits_ne_nil_iff_ne_zero.mpr h0
    have hmem : ∀ b ∈ (Nat.digits 10 r).reverse.map (fun d => d + 48), 48 ≤ b := by
      intro b hb
      obtain ⟨d, _, rfl⟩ := List.mem_map.mp hb
      omega
    refine ⟨by simp [hne], ?_, ?_⟩
    · intro hm
      have := hmem nl hm
      norm_num [nl] at this
    · intro hlast
      have hcrm := List.mem_of_mem_getLast? (l := (Nat.digits 10 r).reverse.map (fun d => d + 48))
        (a := cr) (by rw [hlast]; rfl)
      have := hmem cr hcrm
      norm_num [cr] at this

/-- A field line made of a well-formed prefix and a well-formed value is a
well-formed line. -/
theorem line_wf {pre v : List Nat} (hpre : pre ≠ []) (hprenl : nl ∉ pre)
    (hprecr : pre.getLast? ≠ some cr) (hvnl : nl ∉ v) (hvcr : v.getLast? ≠ some cr) :
    pre ++ v ≠ [] ∧ nl ∉ pre ++ v ∧ (pre ++ v).getLast? ≠ some cr := by
  refine ⟨by simp [hpre], ?_, ?_⟩
  · intro hm
    rcases List.mem_append.mp hm with h | h
    · exact hprenl h
    · exact hvnl h
  · rw [List.getLast?_append]
    cases hv : v.getLast? with
    | none => simpa [Option.or] using hprecr
    | some x =>
      simp only [Option.or]
      exact fun he => hvcr (hv.trans he)

/-- Every line of an encoded event is well formed when the event's strings
hold no line feed and do not end in a carriage return. -/
theorem eventLines_wf (e : Event)
    (hdnl : nl ∉ e.data) (hdcr : e.data.getLast? ≠ some cr)
    (hev : ∀ v, e.event = some v → nl ∉ v ∧ v.getLast? ≠ some cr)
    (hid : ∀ v, e.id = some v → nl ∉ v ∧ v.getLast? ≠ some cr) :
    ∀ l ∈ eventLines e, l ≠ [] ∧ nl ∉ l ∧ l.getLast? ≠ some cr := by
  intro l hl
  unfold eventLines at hl
  rcases List.mem_append.mp hl with h1 | hD
  · rcases List.mem_append.mp h1 with h2 | hC
    · rcases List.mem_append.mp h2 with hA | hB
      · cases he : e.event with
        | none => rw [he] at hA; simp at hA
        | some v =>
          rw [he] at hA
          simp at hA
          subst hA
          exact line_wf (by decide) (by decide) (by decide) (hev v he).1 (hev v he).2
      · simp at hB
        subst hB
        exact line_wf (by decide) (by decide) (by decide) hdnl hdcr
    · cases hi : e.id with
      | none => rw [hi] at hC; simp at hC
      | some v =>
        rw [hi] at hC
        simp at hC
        subst hC
        exact line_wf (by decide) (by decide) (by decide) (hid v hi).1 (hid v hi).2
  · cases hr : e.retry with
    | none => rw [hr] at hD; simp at hD
    | some rv =>
      rw [hr] at hD
      simp at hD
      subst hD
      obtain ⟨hn1, hn2, hn3⟩ := natDecimal_wf rv
      exact line_wf (by decide) (by decide) (by decide) hn2 hn3

/-- Classifying the lines of an encoded event from a fresh partial event
fills exactly the event's fields, the data list holding the one data
string. -/
theorem foldl_eventLines (e : Event) (h64 : ∀ r, e.retry = some r → r < 2 ^ 64) :
    (eventLines e).foldl applyField PartialEvent.default =
      ⟨e.id, e.event, [e.data], e.retry⟩ := by
  obtain ⟨ev, d, i, r⟩ := e
  cases r with
  | none =>
    cases ev <;> cases i <;>
      simp [eventLines, List.foldl, applyField_data, applyField_event, applyField_id,
        PartialEvent.default]
  | some rv =>
    have h64v : rv < 2 ^ 64 := h64 rv rfl
    have hret : ∀ pe : PartialEvent,
        applyField pe (retrySp ++ natDecimal rv) = { pe with retry := some rv } :=
      fun pe => applyField_retry pe _ _ (parseU64_natDecimal h64v)
    cases ev <;> cases i <;>
      simp [eventLines, List.foldl, applyField_data, applyField_event, applyField_id,
        hret, PartialEvent.default]

/-- Parsing an encoded well-formed event from a fresh partial event returns
exactly that event, consumes the whole buffer and resets the state. -/
theorem parseEventFromBuffer_encode (e : Event)
    (hdnl : nl ∉ e.data) (hdcr : e.data.getLast? ≠ some cr)
    (hev : ∀ v, e.event = some v → nl ∉ v ∧ v.getLast? ≠ some cr)
    (hid : ∀ v, e.id = some v → nl ∉ v ∧ v.getLast? ≠ some cr)
    (h64 : ∀ r, e.retry = some r → r < 2 ^ 64) :
    parseEventFromBuffer e.encode PartialEvent.default =
      (some e, [], PartialEvent.default) := by
  rw [encode_eq_lineChain,
    lineChain_emit (eventLines e) PartialEvent.default (eventLines_ne_nil e)
      (eventLines_wf e hdnl hdcr hev hid)
      (by rw [foldl_eventLines e h64]; simp),
    foldl_eventLines e h64]
  obtain ⟨ev, d, i, r⟩ := e
  simp [PartialEvent.toEvent, List.intercalate, List.intersperse]

/-! Unfolding lemmas for the SSE stream loop. -/

/-- The loop returns at once when the buffer already holds an event. -/
theorem ssePollLoop_emit {s : SseStream} {ev : Event} {buf' : List Nat}
    {pe' : PartialEvent} (fuel : Nat)
    (h : parseEventFromBuffer s.buffer s.partialEvent = (some ev, buf', pe')) :
    ssePollLoop (fuel + 1) s = (some (.ok ev), ⟨s.body, buf', pe'⟩) := by
  rw [ssePollLoop, h]

/-- The loop pulls the next body frame when no event is parseable yet. -/
theorem ssePollLoop_pull {s : SseStream} {buf' frame : List Nat}
    {pe' : PartialEvent} {body' : Body} (fuel : Nat)
    (hp : parseEventFromBuffer s.buffer s.partialEvent = (none, buf', pe'))
    (hb : s.body.pollNext = (some (.ok frame), body')) :
    ssePollLoop (fuel + 1) s = ssePollLoop fuel ⟨body', buf' ++ frame, pe'⟩ := by
  rw [ssePollLoop, hp, hb]

/-- The loop forwards a body error without ending the stream. -/
theorem ssePollLoop_err {s : SseStream} {buf' : List Nat} {pe' : PartialEvent}
    {e : BodyError} {body' : Body} (fuel : Nat)
    (hp : parseEventFromBuffer s.buffer s.partialEvent = (none, buf', pe'))
    (hb : s.body.pollNext = (some (.error e), body')) :
    ssePollLoop (fuel + 1) s = (some (.error (.bodyError e)), ⟨body', buf', pe'⟩) := by
  rw [ssePollLoop, hp, hb]

/-- One sseEventsFuel step over a yielded item. -/
theorem sseEventsFuel_some {s s' : SseStream} {r : Except ParseError Event} (n : Nat)
    (hp : s.pollNext = (some r, s')) :
    sseEventsFuel (n + 1) s = r :: sseEventsFuel n s' := by
  rw [sseEventsFuel, hp]

/-- sseEventsFuel stops at the first exhausted poll. -/
theorem sseEventsFuel_none {s s' : SseStream} (n : Nat)
    (hp : s.pollNext = (none, s')) :
    sseEventsFuel (n + 1) s = [] := by
  rw [sseEventsFuel, hp]

/-- Decoding an in-memory body whose bytes parse to exactly one event (with
an empty remainder and a reset state) yields that one event and ends. -/
theorem sseEvents_once {m : Option Mime} {bs : List Nat} {ev : Event}
    (hbs : bs ≠ [])
    (h : parseEventFromBuffer bs PartialEvent.default = (some ev, [], PartialEvent.default)) :
    sseEvents ⟨m, .once bs⟩ = [Except.ok ev] := by
  have hrem : Body.remainingItems ⟨m, .once bs⟩ = 1 := by
    simp [Body.remainingItems, hbs]
  have hb1 : Body.pollNext ⟨m, .once bs⟩ = (some (.ok bs), ⟨m, .once []⟩) := by
    simp [Body.pollNext, hbs]
  have hpoll1 : SseStream.pollNext ⟨⟨m, .once bs⟩, [], PartialEvent.default⟩ =
      (some (.ok ev), ⟨⟨m, .once []⟩, [], PartialEvent.default⟩) := by
    unfold SseStream.pollNext
    rw [show Body.remainingItems (SseStream.body ⟨⟨m, .once bs⟩, [], PartialEvent.default⟩) = 1
        from hrem,
      ssePollLoop_pull 1 (parseEventFromBuffer_nil _) hb1, List.nil_append,
      ssePollLoop_emit 0 h]
  have hpoll2 : SseStream.pollNext ⟨⟨m, .once []⟩, [], PartialEvent.default⟩ =
      (none, ⟨⟨m, .once []⟩, [], PartialEvent.default⟩) := rfl
  have hN : Body.totalBytes ⟨m, .once bs⟩ + Body.remainingItems ⟨m, .once bs⟩ + 2 =
      bs.length + 2 + 1 := by
    simp [Body.totalBytes, hrem]
  unfold sseEvents
  rw [show SseStream.new ⟨m, .once bs⟩ = ⟨⟨m, .once bs⟩, [], PartialEvent.default⟩ from rfl,
    hN, sseEventsFuel_some _ hpoll1,
    show bs.length + 2 = bs.length + 1 + 1 from rfl,
    sseEventsFuel_none _ hpoll2]

/-! Remaining helper lemmas for the body claims. -/

/-- Collecting the tail of an error-free stream appends all its chunks. -/
theorem collectFrames_ok (acc : List Nat) (l : List (List Nat)) :
    collectFrames acc (l.map .ok) = .ok (acc ++ l.flatten) := by
  induction l generalizing acc with
  | nil => simp [collectFrames]
  | cons c cs ih => simp [collectFrames, ih, List.append_assoc]

/-- After a successful as_bytes the body is the bare cached Once value with
no MIME tag. -/
theorem asBytes_ok_state {b b' : Body} {bs : List Nat} (h : b.asBytes = (.ok bs, b')) :
    b' = ⟨none, .once bs⟩ := by
  unfold Body.asBytes Body.take at h
  by_cases hf : b.isFrozen
  · rw [if_pos hf] at h
    simp at h
  · rw [if_neg hf] at h
    cases hib : b.intoBytes with
    | error e => simp [hib] at h
    | ok bytes =>
      simp [hib, Body.frozen] at h
      obtain ⟨h1, h2⟩ := h
      subst h1
      exact h2.symm

/-- Every poll of a decoder over a frozen body yields the BodyError item and
returns to the same state, for any pending partial event. -/
theorem ssePolls_frozen (n : Nat) (pe : PartialEvent) :
    ssePolls n ⟨Body.frozen, [], pe⟩ =
      (List.replicate n (some (.error (.bodyError .bodyFrozen))),
        ⟨Body.frozen, [], pe⟩) := by
  induction n with
  | zero => rfl
  | succ n ih =>
    have hp : SseStream.pollNext ⟨Body.frozen, [], pe⟩ =
        (some (.error (.bodyError .bodyFrozen)), ⟨Body.frozen, [], pe⟩) := rfl
    simp [ssePolls, hp, ih, List.replicate_succ]

/-- Bytes "retry: not_a_number\ndata: test\n\n". -/
def invalidRetryInput : List Nat :=
  retrySp ++ [110, 111, 116, 95, 97, 95, 110, 117, 109, 98, 101, 114] ++ [nl] ++
    dataSp ++ [116, 101, 115, 116] ++ [nl, nl]

/-! The claims. -/

/-- C1. The spec promises chunk-boundary invariance: decoding fixed bytes B
must give the same event sequence however B is split into chunks. The code
violates it: B = "data: a\n\ndata: b\n\n" decodes to the two events "a" and
"b" when delivered whole, but splitting B after the first line feed makes
the lone blank line at the head of the second chunk pass through the
incomplete-line branch, which never emits, so the two blocks merge into the
single event "a\nb". -/
theorem c1_chunk_boundary_divergence :
    bChunk1 ++ bChunk2 = bWhole ∧
    sseEvents (Body.fromBytes bWhole) =
      [.ok ⟨none, [97], none, none⟩, .ok ⟨none, [98], none, none⟩] ∧
    sseEvents (Body.fromStream [.ok bChunk1, .ok bChunk2]) =
      [.ok ⟨none, [97, nl, 98], none, none⟩] ∧
    sseEvents (Body.fromBytes bWhole) ≠
      sseEvents (Body.fromStream [.ok bChunk1, .ok bChunk2]) :=
  ⟨rfl, by decide, by decide, by decide⟩

/-- C2, counterexample. The round trip fails for an event whose non-empty
data contains a line feed: data "a\nb" encodes to "data: a\nb\n\n", whose
line "b" is an unknown field, so decoding returns the single event "a". -/
theorem c2_roundtrip_counterexample :
    ([97, nl, 98] : List Nat) ≠ [] ∧
    sseEvents (Body.fromBytes (Event.encode ⟨none, [97, nl, 98], none, none⟩)) =
      [.ok ⟨none, [97], none, none⟩] ∧
    (⟨none, [97], none, none⟩ : Event) ≠ ⟨none, [97, nl, 98], none, none⟩ :=
  ⟨by decide, by decide, by decide⟩

/-- C2, amended: for every Event with non-empty data whose data, event type
and id contain no line feed and do not end in a carriage return, and whose
retry fits in 64 bits, encoding and then decoding with SseStream yields
exactly that one event and nothing further. -/
theorem c2_roundtrip_amended (e : Event)
    (hd : e.data ≠ []) (hdnl : nl ∉ e.data) (hdcr : e.data.getLast? ≠ some cr)
    (hev : ∀ v, e.event = some v → nl ∉ v ∧ v.getLast? ≠ some cr)
    (hid : ∀ v, e.id = some v → nl ∉ v ∧ v.getLast? ≠ some cr)
    (h64 : ∀ r, e.retry = some r → r < 2 ^ 64) :
    sseEvents (Body.fromBytes e.encode) = [.ok e] := by
  have henc : e.encode ≠ [] := by
    intro h
    have := congrArg List.length h
    simp [Event.encode] at this
  exact sseEvents_once henc (parseEventFromBuffer_encode e hdnl hdcr hev hid h64)

/-- C2, witness: the round trip at a concrete event using all four fields. -/
theorem c2_roundtrip_witness :
    sseEvents (Body.fromBytes
        (Event.encode ⟨some [117], [104, 105], some [49], some 3000⟩)) =
      [.ok ⟨some [117], [104, 105], some [49], some 3000⟩] :=
  c2_roundtrip_amended ⟨some [117], [104, 105], some [49], some 3000⟩
    (by decide) (by decide) (by decide)
    (fun v hv => by injection hv with h2; subst h2; exact ⟨by decide, by decide⟩)
    (fun v hv => by injection hv with h2; subst h2; exact ⟨by decide, by decide⟩)
    (fun r hr => by injection hr with h2; subst h2; decide)

/-- C3, counterexample. A blank line consumed while the data list is
non-empty is required by the claim to emit an event, but a lone blank line
at the head of the buffer is drained by the incomplete-line branch without
emitting: the partial event keeps its pending data and the next block
merges with it. -/
theorem c3_blank_line_counterexample :
    peOneData.data ≠ [] ∧
    parseEventFromBuffer [nl] peOneData = (none, [], peOneData) ∧
    sseEvents (Body.fromStream
        [.ok (dataSp ++ [97, nl]), .ok [nl], .ok (dataSp ++ [98, nl, nl])]) =
      [.ok ⟨none, [97, nl, 98], none, none⟩] :=
  ⟨by decide, by decide, by decide⟩

/-- C3, amended: a blank line consumed as part of a double line feed emits
an event exactly when the data list is non-empty, joining the data lines in
order and resetting every field; with an empty data list the separator
emits nothing and id, event type and retry are retained; a lone blank line
drained by the incomplete-line branch never emits and changes nothing. -/
theorem c3_blank_line_amended (pe : PartialEvent) (rest : List Nat) :
    (pe.data ≠ [] → parseEventFromBuffer (nl :: nl :: rest) pe =
      (some pe.toEvent, rest, PartialEvent.default)) ∧
    (pe.data = [] → parseEventFromBuffer [nl, nl] pe = (none, [], pe)) ∧
    parseEventFromBuffer [nl] pe = (none, [], pe) :=
  ⟨parseEvent_blank_emit pe rest, parseEvent_blank_keep pe, parseEvent_lone_blank pe⟩

/-- C3, witness: the emitting branch of the amended claim at a concrete
pending event. -/
theorem c3_blank_line_witness :
    parseEventFromBuffer (nl :: nl :: []) peOneData =
      (some peOneData.toEvent, [], PartialEvent.default) :=
  (c3_blank_line_amended peOneData []).1 (by decide)

/-- C4. take on a non-frozen body returns the whole original body and
leaves the frozen placeholder behind; every read on the frozen body
(into_bytes, into_string, as_bytes, as_str, one poll, a second take)
returns the BodyFrozen error, and freeze followed by into_bytes does too. -/
theorem c4_take_frozen_errors (b b2 : Body) (h : b.isFrozen = false) :
    b.take = (.ok b, Body.frozen) ∧
    Body.frozen.intoBytes = .error .bodyFrozen ∧
    Body.frozen.intoString = .error .bodyFrozen ∧
    (Body.frozen.asBytes).1 = .error .bodyFrozen ∧
    (Body.frozen.asStr).1 = .error .bodyFrozen ∧
    (Body.frozen.pollNext).1 = some (.error .bodyFrozen) ∧
    (Body.frozen.take).1 = .error .bodyFrozen ∧
    (b2.freeze).intoBytes = .error .bodyFrozen := by
  refine ⟨?_, rfl, rfl, rfl, rfl, rfl, rfl, rfl⟩
  unfold Body.take
  rw [h]
  simp

/-- C4, witness: take at a concrete byte body. -/
theorem c4_take_frozen_errors_witness :
    (Body.fromBytes [104]).take = (.ok (Body.fromBytes [104]), Body.frozen) :=
  (c4_take_frozen_errors (Body.fromBytes [104]) Body.empty rfl).1

/-- C5. from_bytes round trips through into_bytes; a stream-backed body
aggregates to the concatenation of its chunks; a single-chunk stream
returns its chunk unmodified. -/
theorem c5_aggregation (P c : List Nat) (chunks : List (List Nat)) :
    (Body.fromBytes P).intoBytes = .ok P ∧
    (Body.fromStream (chunks.map .ok)).intoBytes = .ok chunks.flatten ∧
    intoBytesStream [.ok c] = .ok c := by
  refine ⟨rfl, ?_, rfl⟩
  cases chunks with
  | nil => rfl
  | cons c1 rest =>
    cases rest with
    | nil => simp [Body.fromStream, Body.intoBytes, intoBytesStream]
    | cons c2 rest2 =>
      simp [Body.fromStream, Body.intoBytes, intoBytesStream, collectFrames_ok,
        List.append_assoc]

/-- C6. replace never fails and swaps wholesale: it returns the old body
and installs the new one, even over a frozen body, which becomes usable
again with the new content. -/
theorem c6_replace_unconditional (b new : Body) (P : List Nat) :
    b.replace new = (b, new) ∧
    (Body.frozen.replace new).2 = new ∧
    ((Body.frozen.replace (Body.fromBytes P)).2).isFrozen = false ∧
    ((Body.frozen.replace (Body.fromBytes P)).2).intoBytes = .ok P :=
  ⟨rfl, rfl, rfl, rfl⟩

/-- C7. A reader body reports its length hint; pulling a chunk decrements
the hint by the chunk size, saturating at zero; a stream body reports no
length. -/
theorem c7_length_hint (c : List Nat) (cs chunks : List (List Nat)) (hint : Nat)
    (m : Option Mime) (frames : List (Except BodyError (List Nat))) (hc : c ≠ []) :
    (Body.fromReader chunks (some hint)).len = some hint ∧
    (Body.fromReader chunks none).len = none ∧
    Body.pollNext ⟨m, .reader (c :: cs) (some hint)⟩ =
      (some (.ok c), ⟨m, .reader cs (some (hint - c.length))⟩) ∧
    (⟨m, .reader cs (some (hint - c.length))⟩ : Body).len = some (hint - c.length) ∧
    (Body.fromStream frames).len = none := by
  refine ⟨rfl, rfl, ?_, rfl, rfl⟩
  simp [Body.pollNext, hc]

/-- C7, witness: one pull at a concrete reader with hint five. -/
theorem c7_length_hint_witness :
    Body.pollNext ⟨none, .reader [[104]] (some 5)⟩ =
      (some (.ok [104]), ⟨none, .reader [] (some 4)⟩) :=
  (c7_length_hint [104] [] [] 5 none [] (by decide)).2.2.1

/-- C8. A retry line whose remainder does not parse as a 64-bit unsigned
integer is silently ignored: the whole partial event is unchanged, and the
spec's concrete scenario decodes to one event with no retry and no error. -/
theorem c8_invalid_retry (pe : PartialEvent) (x : List Nat) (hx : parseU64 x = none) :
    applyField pe (retrySp ++ x) = pe ∧
    sseEvents (Body.fromBytes invalidRetryInput) =
      [.ok ⟨none, [116, 101, 115, 116], none, none⟩] :=
  ⟨applyField_retry_bad pe x hx, by decide⟩

/-- C8, witness: the unchanged field chain at the remainder "x". -/
theorem c8_invalid_retry_witness :
    applyField PartialEvent.default (retrySp ++ [120]) = PartialEvent.default :=
  (c8_invalid_retry PartialEvent.default [120] (by decide)).1

/-- C9. A successful as_bytes (or as_str) leaves the body as the cached
Once value with no MIME tag, because take replaced the whole body, MIME
included, with the frozen placeholder before the bytes were cached; a
from_bytes body does carry a MIME tag beforehand. -/
theorem c9_mime_discarded (b b' : Body) (bs P : List Nat)
    (h : b.asBytes = (.ok bs, b')) :
    b'.mime = none ∧ b' = ⟨none, .once bs⟩ ∧
    (Body.fromBytes P).mime = some .applicationOctetStream ∧
    ((Body.fromBytes P).asBytes).2.mime = none ∧
    (∀ (b2 b2' : Body) (bs2 : List Nat), b2.asStr = (.ok bs2, b2') → b2'.mime = none) := by
  have h1 := asBytes_ok_state h
  refine ⟨by rw [h1], h1, rfl, rfl, ?_⟩
  intro b2 b2' bs2 h2
  unfold Body.asStr at h2
  cases hab : b2.asBytes with
  | mk r bmid =>
    cases r with
    | error e => rw [hab] at h2; simp at h2
    | ok bytes =>
      rw [hab] at h2
      by_cases hu : utf8Valid bytes
      · simp [hu] at h2
        rw [← h2.2, asBytes_ok_state hab]
      · simp [hu] at h2

/-- C9, witness: as_bytes at a concrete byte body with a MIME tag. -/
theorem c9_mime_discarded_witness :
    ((⟨none, .once [104]⟩ : Body)).mime = none :=
  (c9_mime_discarded (Body.fromBytes [104]) ⟨none, .once [104]⟩ [104] [1] rfl).1

/-- C10. Polling an SseStream over a frozen body any number of times, from
any partial-event state, yields the BodyError item every single time (never
an Ok item and never the end of the stream) and leaves the state unchanged,
so the errors repeat indefinitely. -/
theorem c10_frozen_body_polls (n : Nat) (pe : PartialEvent) :
    ssePolls n ⟨Body.frozen, [], pe⟩ =
      (List.replicate n (some (.error (.bodyError .bodyFrozen))),
        ⟨Body.frozen, [], pe⟩) ∧
    ssePolls n (SseStream.new Body.frozen) =
      (List.replicate n (some (.error (.bodyError .bodyFrozen))),
        SseStream.new Body.frozen) :=
  ⟨ssePolls_frozen n pe, ssePolls_frozen n PartialEvent.default⟩

end HttpKit
